import Mathlib

/-
Verification of the PyAutoLens ray-tracing core against its specification.

Part A embeds the two-plane ray tracer of src/analysis/ray_tracing.py
(Tracer, Plane) together with the coordinate-grid operations of the
auto_lens.imaging.grids module.  The grids module itself is not among the
sources (only its unit tests, auto_lens/imaging/test_grids.py, are), so the
grid operations are modelled from the specification; the embedding uses exact
rationals for coordinates and treats mass/light profiles as opaque functions,
exactly as the spec declares them ("pure and deterministic" capabilities).
-/

namespace AutoLens

/-- A sky-plane coordinate: an (x, y) pair of arc-second values. -/
abbrev Coord := ℚ × ℚ

/-- Modelled from the spec: a MassProfile is an external capability
`deflection_angle(coordinate) -> (dy, dx)`, pure and deterministic. -/
def MassProfile := Coord → Coord

/-- Modelled from the spec: a LightProfile is an external capability
`intensity(coordinate) -> scalar`. -/
def LightProfile := Coord → ℚ

/-- Modelled from the spec: a Galaxy carries ordered mass-profile and ordered
light-profile capabilities (redshift is irrelevant to the embedded claims). -/
structure Galaxy where
  mass_profiles : List MassProfile
  light_profiles : List LightProfile

/-- Modelled from the spec: the summed deflection-angle vector of every mass
profile of every galaxy, evaluated at one coordinate. -/
def deflection_angles_at (galaxies : List Galaxy) (c : Coord) : Coord :=
  (galaxies.map (fun g => (g.mass_profiles.map (fun p => p c)).sum)).sum

/-- Modelled from the spec: `deflection_grid_from_galaxies` of the grids
module (missing from the sources; only test_grids.py exercises it): for every
coordinate, sum the deflection-angle vector of every mass profile of every
galaxy; returns a same-shaped deflection grid. -/
def deflection_grid_from_galaxies (galaxies : List Galaxy) (grid : List Coord) : List Coord :=
  grid.map (deflection_angles_at galaxies)

/-- Modelled from the spec: `trace_to_next_grid(deflection_grid)` of the grids
module (missing from the sources): elementwise `coordinate - deflection`;
pure and non-mutating (the embedding is functional, so inputs are values). -/
def trace_to_next_grid (grid deflections : List Coord) : List Coord :=
  List.zipWith (fun c d => c - d) grid deflections

/-- Modelled from the spec: the summed light-profile intensity of every galaxy
at one coordinate. -/
def intensity_at (galaxies : List Galaxy) (c : Coord) : ℚ :=
  (galaxies.map (fun g => (g.light_profiles.map (fun l => l c)).sum)).sum

/-- Modelled from the spec: blurring-grid intensities, one direct sample per
coordinate; flat intensity array aligned to blurring-grid order. -/
def intensities_via_grid (galaxies : List Galaxy) (grid : List Coord) : List ℚ :=
  grid.map (intensity_at galaxies)

/-- Modelled from the spec: GridImageSub carries the coordinates (an ordered
sequence of sub-coordinates per pixel) together with `sub_grid_size`, which is
preserved through deflection and trace operations. -/
structure GridImageSub where
  grid : List (List Coord)
  sub_grid_size : Nat

/-- Modelled from the spec: deflections of a sub-grid, per sub-coordinate,
`sub_grid_size` carried over. -/
def sub_deflection_grid (galaxies : List Galaxy) (s : GridImageSub) : GridImageSub :=
  ⟨s.grid.map (List.map (deflection_angles_at galaxies)), s.sub_grid_size⟩

/-- Modelled from the spec: elementwise `coordinate - deflection` for a
sub-grid, `sub_grid_size` carried over. -/
def sub_trace (s d : GridImageSub) : GridImageSub :=
  ⟨List.zipWith (List.zipWith (fun c e => c - e)) s.grid d.grid, s.sub_grid_size⟩

/-- Modelled from the spec: sub-grid intensities: sum all galaxies' intensities
at every sub-coordinate, then average the `sub_grid_size ^ 2` samples of each
pixel. -/
def sub_intensities_via_grid (galaxies : List Galaxy) (s : GridImageSub) : List ℚ :=
  s.grid.map (fun pix => (pix.map (intensity_at galaxies)).sum / ((s.sub_grid_size : ℚ)) ^ 2)

/-- Modelled from the spec: the RayTracingGrids / GridCoordsCollection bundle:
an always-present image grid with optional sub and blurring grids; absence is
an explicit tagged state. -/
structure GridCoordsCollection where
  image : List Coord
  sub : Option GridImageSub
  blurring : Option (List Coord)

/-- Modelled from the spec: combine the matching optional grids of two
bundles; absence propagates, and a presence mismatch between the operands
fails fast (yields no result). -/
def pairPresent {α β γ : Type} : Option α → Option β → (α → β → γ) → Option (Option γ)
  | some a, some b, f => some (some (f a b))
  | none, none, _ => some none
  | _, _, _ => none

/-- Modelled from the spec: `deflection_grids_from_galaxies` applied per
present grid of the bundle. -/
def deflection_grids_for_galaxies (g : GridCoordsCollection) (galaxies : List Galaxy) :
    GridCoordsCollection :=
  ⟨deflection_grid_from_galaxies galaxies g.image,
   g.sub.map (sub_deflection_grid galaxies),
   g.blurring.map (deflection_grid_from_galaxies galaxies)⟩

/-- Modelled from the spec: `traced_grids_for_deflections` applied per present
grid; absence propagates; a bundle-presence mismatch fails fast. -/
def traced_grids_for_deflections (g d : GridCoordsCollection) : Option GridCoordsCollection := do
  let s ← pairPresent g.sub d.sub sub_trace
  let b ← pairPresent g.blurring d.blurring trace_to_next_grid
  pure ⟨trace_to_next_grid g.image d.image, s, b⟩

/-- A plane of the ray-tracing calculation: galaxies, a grid bundle and the
optional eagerly-computed deflection bundle (Plane.__init__ stores
`self.deflections` only when `compute_deflections` is true). -/
structure Plane where
  galaxies : List Galaxy
  grids : GridCoordsCollection
  deflections : Option GridCoordsCollection

/-- Plane.__init__ of ray_tracing.py: stores galaxies and grids; if
`compute_deflections`, eagerly computes and stores the deflection bundle at
construction time. -/
def mkPlane (galaxies : List Galaxy) (grids : GridCoordsCollection)
    (compute_deflections : Bool) : Plane :=
  ⟨galaxies, grids,
   if compute_deflections then some (deflection_grids_for_galaxies grids galaxies) else none⟩

/-- Plane.trace_to_next_plane of ray_tracing.py: returns
`grids.traced_grids_for_deflections(deflections)`; undefined (no result) when
the plane was built without deflections. -/
def Plane.trace_to_next_plane (p : Plane) : Option GridCoordsCollection :=
  p.deflections.bind (fun d => traced_grids_for_deflections p.grids d)

/-- The opaque external `mapping` hook threaded through the light-image
calls; unused by light-profile-only galaxies. -/
def Mapping : Type := Unit

/-- Plane.generate_image_of_galaxy_light_profiles of ray_tracing.py:
`self.grids.sub.intensities_via_grid(self.galaxies, mapping)`; no result when
the bundle carries no sub grid (the attribute access would fault). -/
def Plane.generate_image_of_galaxy_light_profiles (p : Plane) (_m : Mapping) :
    Option (List ℚ) :=
  p.grids.sub.map (sub_intensities_via_grid p.galaxies)

/-- Plane.generate_blurring_image_of_galaxy_light_profiles of ray_tracing.py:
`self.grids.blurring.intensities_via_grid(self.galaxies)`. -/
def Plane.generate_blurring_image_of_galaxy_light_profiles (p : Plane) : Option (List ℚ) :=
  p.grids.blurring.map (intensities_via_grid p.galaxies)

/-- The Tracer of ray_tracing.py holds exactly an image plane and a source
plane; no other planes exist. -/
structure Tracer where
  image_plane : Plane
  source_plane : Plane

/-- Tracer.__init__ of ray_tracing.py: builds the image plane over the lens
galaxies with `compute_deflections=True`, immediately traces to obtain the
source-plane grids, and builds the source plane over the source galaxies with
`compute_deflections=False`. -/
def mkTracer (lens_galaxies source_galaxies : List Galaxy)
    (image_plane_grids : GridCoordsCollection) : Option Tracer :=
  let ip := mkPlane lens_galaxies image_plane_grids true
  ip.trace_to_next_plane.map (fun sg => ⟨ip, mkPlane source_galaxies sg false⟩)

/-- Tracer.generate_image_of_galaxy_light_profiles of ray_tracing.py: the sum
of both planes' light images. -/
def Tracer.generate_image_of_galaxy_light_profiles (t : Tracer) (m : Mapping) :
    Option (List ℚ) :=
  (t.image_plane.generate_image_of_galaxy_light_profiles m).bind (fun a =>
    (t.source_plane.generate_image_of_galaxy_light_profiles m).map (fun b =>
      List.zipWith (· + ·) a b))

/-- Tracer.generate_blurring_image_of_galaxy_light_profiles of ray_tracing.py:
`if self.image_plane.grids.blurring is not None`, the sum of both planes'
blurring images; otherwise no result (Python falls through returning None). -/
def Tracer.generate_blurring_image_of_galaxy_light_profiles (t : Tracer) : Option (List ℚ) :=
  match t.image_plane.grids.blurring with
  | none => none
  | some _ =>
    (t.image_plane.generate_blurring_image_of_galaxy_light_profiles).bind (fun a =>
      (t.source_plane.generate_blurring_image_of_galaxy_light_profiles).map (fun b =>
        List.zipWith (· + ·) a b))

/-- Helper: the full construction behaviour of `mkTracer`, shared by the
claim theorems below. -/
theorem mkTracer_eq (lens source : List Galaxy) (gc : GridCoordsCollection) :
    mkTracer lens source gc = some
      { image_plane :=
          { galaxies := lens, grids := gc,
            deflections := some (deflection_grids_for_galaxies gc lens) },
        source_plane :=
          { galaxies := source,
            grids :=
              { image := trace_to_next_grid gc.image
                  (deflection_grid_from_galaxies lens gc.image),
                sub := gc.sub.map (fun s => sub_trace s (sub_deflection_grid lens s)),
                blurring := gc.blurring.map (fun b =>
                  trace_to_next_grid b (deflection_grid_from_galaxies lens b)) },
            deflections := none } } := by
  obtain ⟨img, sb, bl⟩ := gc
  cases sb <;> cases bl <;> rfl

/-- C1: constructing a Tracer builds an image plane over the lens galaxies
with the deflection bundle computed and stored eagerly at construction time,
immediately traces the image-plane grids through those deflections to obtain
the source-plane grids, and builds a source plane over the source galaxies
without deflections; the Tracer structure consists of exactly these two
planes, so no other planes are created. -/
theorem tracer_two_plane_construction (lens source : List Galaxy) (gc : GridCoordsCollection) :
    mkTracer lens source gc = some
      { image_plane :=
          { galaxies := lens, grids := gc,
            deflections := some (deflection_grids_for_galaxies gc lens) },
        source_plane :=
          { galaxies := source,
            grids :=
              { image := trace_to_next_grid gc.image
                  (deflection_grid_from_galaxies lens gc.image),
                sub := gc.sub.map (fun s => sub_trace s (sub_deflection_grid lens s)),
                blurring := gc.blurring.map (fun b =>
                  trace_to_next_grid b (deflection_grid_from_galaxies lens b)) },
            deflections := none } } :=
  mkTracer_eq lens source gc

/-- Helper: entry `i` of an elementwise zipWith-subtraction of equally long
lists is the difference of the entries. -/
theorem trace_getD (as : List Coord) :
    ∀ (bs : List Coord) (i : Nat), as.length = bs.length → i < as.length →
      (trace_to_next_grid as bs).getD i 0 = as.getD i 0 - bs.getD i 0 := by
  induction as with
  | nil =>
    intro bs i _ hi
    simp at hi
  | cons a as ih =>
    intro bs i h hi
    cases bs with
    | nil => simp at h
    | cons b bs =>
      cases i with
      | zero => simp [trace_to_next_grid]
      | succ n =>
        simp only [trace_to_next_grid, List.zipWith_cons_cons, List.getD_cons_succ]
        exact ih bs n (by simpa using h) (by simpa using hi)

/-- Helper: subtracting the traced grid from the original grid recovers the
deflections, elementwise. -/
theorem trace_round_trip (as : List Coord) :
    ∀ bs : List Coord, as.length = bs.length →
      trace_to_next_grid as (trace_to_next_grid as bs) = bs := by
  induction as with
  | nil =>
    intro bs h
    cases bs with
    | nil => rfl
    | cons b bs => simp at h
  | cons a as ih =>
    intro bs h
    cases bs with
    | nil => simp at h
    | cons b bs =>
      simp only [trace_to_next_grid, List.zipWith_cons_cons, sub_sub_cancel, List.cons.injEq,
        true_and]
      exact ih bs (by simpa using h)

/-- C2: for a grid and a same-shaped deflection grid, trace_to_next_grid is
the elementwise difference coordinate minus deflection (the embedding is
functional, so the inputs are unchanged values), and subtracting the traced
grid from the original grid recovers the deflection grid elementwise. -/
theorem trace_to_next_grid_correct (grid deflections : List Coord)
    (h : grid.length = deflections.length) :
    (trace_to_next_grid grid deflections).length = grid.length
    ∧ (∀ i, i < grid.length →
        (trace_to_next_grid grid deflections).getD i 0 =
          grid.getD i 0 - deflections.getD i 0)
    ∧ trace_to_next_grid grid (trace_to_next_grid grid deflections) = deflections := by
  refine ⟨?_, ?_, trace_round_trip grid deflections h⟩
  · simp [trace_to_next_grid, h]
  · intro i hi
    exact trace_getD grid deflections i h hi

/-- C2 witness: the round trip at a concrete grid and deflection grid. -/
theorem trace_to_next_grid_correct_witness :
    ([((1 : ℚ), (2 : ℚ)), (3, 4)] : List Coord).length =
        ([((1 : ℚ), (1 : ℚ)), (1, 0)] : List Coord).length
    ∧ trace_to_next_grid [((1 : ℚ), (2 : ℚ)), (3, 4)]
        (trace_to_next_grid [((1 : ℚ), (2 : ℚ)), (3, 4)] [((1 : ℚ), (1 : ℚ)), (1, 0)]) =
        [((1 : ℚ), (1 : ℚ)), (1, 0)] :=
  ⟨by decide,
   (trace_to_next_grid_correct [((1 : ℚ), (2 : ℚ)), (3, 4)] [((1 : ℚ), (1 : ℚ)), (1, 0)]
      (by decide)).2.2⟩

/-- Helper: the deflection of k identical galaxies is k times the deflection
of one of them. -/
theorem deflection_angles_replicate (k : Nat) (g : Galaxy) (c : Coord) :
    deflection_angles_at (List.replicate k g) c = k • deflection_angles_at [g] c := by
  simp [deflection_angles_at, List.map_replicate, List.sum_replicate]

/-- Helper: the deflection of one galaxy with k identical mass profiles is k
times the deflection of a galaxy with one such profile. -/
theorem deflection_angles_profile_replicate (k : Nat) (P : MassProfile) (c : Coord) :
    deflection_angles_at [⟨List.replicate k P, []⟩] c =
      k • deflection_angles_at [⟨[P], []⟩] c := by
  simp [deflection_angles_at, List.map_replicate, List.sum_replicate]

/-- Helper: entry `i` of a mapped list is the function applied to entry `i`. -/
theorem getD_map_coord (f : Coord → Coord) (l : List Coord) :
    ∀ i : Nat, i < l.length → (l.map f).getD i 0 = f (l.getD i 0) := by
  induction l with
  | nil => intro i hi; simp at hi
  | cons a l ih =>
    intro i hi
    cases i with
    | zero => simp
    | succ n =>
      simp only [List.map_cons, List.getD_cons_succ]
      exact ih n (by simpa using hi)

/-- C3: deflection_grid_from_galaxies sums, at every coordinate, the
deflection-angle vectors of every mass profile of every galaxy and has the
same shape as the input grid; k copies of a one-profile galaxy, or one galaxy
with k copies of the profile, give k times the single-profile deflection
grid. -/
theorem deflection_grid_spec (gs : List Galaxy) (grid : List Coord) (P : MassProfile)
    (k : Nat) (hk : 1 ≤ k) :
    (deflection_grid_from_galaxies gs grid).length = grid.length
    ∧ (∀ i, i < grid.length →
        (deflection_grid_from_galaxies gs grid).getD i 0 =
          deflection_angles_at gs (grid.getD i 0))
    ∧ deflection_grid_from_galaxies (List.replicate k ⟨[P], []⟩) grid
        = (deflection_grid_from_galaxies [⟨[P], []⟩] grid).map (fun d => k • d)
    ∧ deflection_grid_from_galaxies [⟨List.replicate k P, []⟩] grid
        = (deflection_grid_from_galaxies [⟨[P], []⟩] grid).map (fun d => k • d) := by
  refine ⟨by simp [deflection_grid_from_galaxies], ?_, ?_, ?_⟩
  · intro i hi
    exact getD_map_coord (deflection_angles_at gs) grid i hi
  · simp only [deflection_grid_from_galaxies, List.map_map]
    exact List.map_congr_left (fun c _ => deflection_angles_replicate k ⟨[P], []⟩ c)
  · simp only [deflection_grid_from_galaxies, List.map_map]
    exact List.map_congr_left (fun c _ => deflection_angles_profile_replicate k P c)

/-- C3 witness: three identical identity-deflection galaxies triple the
single-galaxy deflection grid. -/
theorem deflection_grid_spec_witness :
    1 ≤ 3
    ∧ deflection_grid_from_galaxies (List.replicate 3 (⟨[fun c => c], []⟩ : Galaxy))
        [((1 : ℚ), (2 : ℚ))]
      = (deflection_grid_from_galaxies [(⟨[fun c => c], []⟩ : Galaxy)]
          [((1 : ℚ), (2 : ℚ))]).map (fun d => 3 • d) :=
  ⟨by norm_num,
   (deflection_grid_spec [] [((1 : ℚ), (2 : ℚ))] (fun c => c) 3 (by norm_num)).2.2.1⟩

/-- C8: a Tracer whose bundle has no blurring grid yields no blurring image;
with a blurring grid present, the blurring image is the elementwise sum of
the image plane's and the source plane's blurring images. -/
theorem tracer_blurring_image_spec (lens source : List Galaxy) (gc : GridCoordsCollection)
    (t : Tracer) (ht : mkTracer lens source gc = some t) :
    (gc.blurring = none → t.generate_blurring_image_of_galaxy_light_profiles = none)
    ∧ (∀ b, gc.blurring = some b →
        t.generate_blurring_image_of_galaxy_light_profiles =
          some (List.zipWith (· + ·) (intensities_via_grid lens b)
            (intensities_via_grid source
              (trace_to_next_grid b (deflection_grid_from_galaxies lens b))))) := by
  rw [mkTracer_eq] at ht
  have h2 := Option.some.inj ht
  subst h2
  constructor
  · intro hb
    simp [Tracer.generate_blurring_image_of_galaxy_light_profiles, hb]
  · intro b hb
    simp [Tracer.generate_blurring_image_of_galaxy_light_profiles,
      Plane.generate_blurring_image_of_galaxy_light_profiles, hb]

/-- C9: for a Tracer whose bundle carries a sub grid, the light image is the
elementwise sum of the image plane's light image (lens galaxies over the
image-plane sub grid) and the source plane's light image (source galaxies
over the traced sub grid). -/
theorem tracer_light_image_spec (lens source : List Galaxy) (gc : GridCoordsCollection)
    (t : Tracer) (m : Mapping) (s : GridImageSub)
    (ht : mkTracer lens source gc = some t) (hs : gc.sub = some s) :
    t.generate_image_of_galaxy_light_profiles m =
      some (List.zipWith (· + ·) (sub_intensities_via_grid lens s)
        (sub_intensities_via_grid source (sub_trace s (sub_deflection_grid lens s)))) := by
  rw [mkTracer_eq] at ht
  have h2 := Option.some.inj ht
  subst h2
  simp [Tracer.generate_image_of_galaxy_light_profiles,
    Plane.generate_image_of_galaxy_light_profiles, hs]

/-- Example lens galaxy: identity deflection, unit intensity. -/
def exGalaxyL : Galaxy := ⟨[fun c => c], [fun _ => 1]⟩

/-- Example source galaxy: no mass, intensity two. -/
def exGalaxyS : Galaxy := ⟨[], [fun _ => 2]⟩

/-- Example grid bundle with image, sub and blurring grids all present. -/
def exGrids : GridCoordsCollection :=
  ⟨[(1, 1)], some ⟨[[(1, 1), (1, 0)]], 2⟩, some [(2, 0)]⟩

/-- The Tracer built from the example galaxies and bundle. -/
def exTracer : Tracer :=
  ⟨⟨[exGalaxyL], exGrids, some (deflection_grids_for_galaxies exGrids [exGalaxyL])⟩,
   ⟨[exGalaxyS],
    ⟨trace_to_next_grid exGrids.image (deflection_grid_from_galaxies [exGalaxyL] exGrids.image),
     exGrids.sub.map (fun s => sub_trace s (sub_deflection_grid [exGalaxyL] s)),
     exGrids.blurring.map (fun b =>
       trace_to_next_grid b (deflection_grid_from_galaxies [exGalaxyL] b))⟩,
    none⟩⟩

/-- An inhabitant of the opaque mapping hook. -/
def exMapping : Mapping := ()

/-- C8 witness: the example Tracer's blurring image is the sum of the two
planes' blurring images. -/
theorem tracer_blurring_image_spec_witness :
    mkTracer [exGalaxyL] [exGalaxyS] exGrids = some exTracer
    ∧ exTracer.generate_blurring_image_of_galaxy_light_profiles = some [3] := by
  refine ⟨mkTracer_eq [exGalaxyL] [exGalaxyS] exGrids, ?_⟩
  have h := (tracer_blurring_image_spec [exGalaxyL] [exGalaxyS] exGrids exTracer
    (mkTracer_eq [exGalaxyL] [exGalaxyS] exGrids)).2 [((2 : ℚ), (0 : ℚ))] rfl
  rw [h]
  simp [intensities_via_grid, intensity_at, trace_to_next_grid,
    deflection_grid_from_galaxies, deflection_angles_at, exGalaxyL, exGalaxyS]
  norm_num

/-- C9 witness: the example Tracer's light image is the sum of the two
planes' sub-grid light images. -/
theorem tracer_light_image_spec_witness :
    mkTracer [exGalaxyL] [exGalaxyS] exGrids = some exTracer
    ∧ exTracer.generate_image_of_galaxy_light_profiles exMapping = some [3 / 2] := by
  refine ⟨mkTracer_eq [exGalaxyL] [exGalaxyS] exGrids, ?_⟩
  have h := tracer_light_image_spec [exGalaxyL] [exGalaxyS] exGrids exTracer exMapping
    ⟨[[(1, 1), (1, 0)]], 2⟩ (mkTracer_eq [exGalaxyL] [exGalaxyS] exGrids) rfl
  rw [h]
  simp [sub_intensities_via_grid, intensity_at, sub_trace, sub_deflection_grid,
    deflection_angles_at, exGalaxyL, exGalaxyS]
  norm_num

/-
Part B embeds Mask.blurring_region and Mask.border_pixels of
src/auto_lens/image.py directly, including numpy indexing semantics: a
negative index within range silently wraps to the opposite edge, while an
index at or past the array extent raises IndexError.  Both methods raise the
single exception type MaskException defined at the bottom of image.py.
-/

/-- A two-dimensional boolean array (the mask, or the blurring-region
output), row-major. -/
abbrev BoolGrid := List (List Bool)

/-- The exceptions the embedded image.py code can raise: its own
MaskException (with the raised message) or numpy's IndexError. -/
inductive PyErr where
  | maskException (msg : String)
  | indexError
deriving DecidableEq

/-- Python/numpy index resolution for one axis of extent `n`: an index in
`[0, n)` is itself; a negative index in `[-n, 0)` silently wraps to the
opposite end; anything else is out of range. -/
def pyIdx (n : Nat) (i : Int) : Option Nat :=
  if 0 ≤ i ∧ i < (n : Int) then some i.toNat
  else if -(n : Int) ≤ i ∧ i < 0 then some (i + n).toNat
  else none

/-- Read `grid[r, c]` with numpy semantics. -/
def npGet (grid : BoolGrid) (r c : Int) : Option Bool :=
  (pyIdx grid.length r).bind (fun ri =>
    grid[ri]?.bind (fun row =>
      (pyIdx row.length c).bind (fun ci => row[ci]?)))

/-- Write `grid[r, c] = v` with numpy semantics. -/
def npSet (grid : BoolGrid) (r c : Int) (v : Bool) : Option BoolGrid :=
  (pyIdx grid.length r).bind (fun ri =>
    grid[ri]?.bind (fun row =>
      (pyIdx row.length c).bind (fun ci => some (grid.set ri (row.set ci v)))))

/-- The in-range mask read `mask[i, j]` performed by the row-major scans
(indices come from `range`, so they are always in bounds). -/
def maskAt (mask : BoolGrid) (i j : Nat) : Bool := (mask.getD i []).getD j false

/-- The integers `a, a+1, ..., b-1`, as Python `range(a, b)`. -/
def intRange (a b : Int) : List Int := (List.range (b - a).toNat).map (fun n => a + (n : Int))

/-- The (i1, j1) offset pairs scanned by Mask.blurring_region:
`range((-size0+1)//2, (size0+1)//2)` crossed with the same for size1 (exact
integer division, as both bounds are even for odd sizes). -/
def blurringOffsets (s0 s1 : Int) : List (Int × Int) :=
  (intRange ((-s0 + 1) / 2) ((s0 + 1) / 2)).flatMap (fun i1 =>
    (intRange ((-s1 + 1) / 2) ((s1 + 1) / 2)).map (fun j1 => (i1, j1)))

/-- All (i, j) pixel positions of an h-by-w array in row-major order. -/
def pixelsOf (h w : Nat) : List (Nat × Nat) :=
  (List.range h).flatMap (fun i => (List.range w).map (fun j => (i, j)))

/-- The message Mask.blurring_region raises for an even kernel dimension. -/
def oddMsg : String := "blurring_region_size of exterior region must be odd"

/-- The message Mask.blurring_region raises when the scan leaves the array
(the source concatenates two string literals without a space). -/
def boundsMsg : String :=
  "blurring_region extends beynod the size of the mask - pad the imagebefore masking"

/-- The inner offset loop of Mask.blurring_region for one included pixel
(i, j): for each (i1, j1), the code checks `0 <= i+i1 <= shape[0]-1` and
`0 <= j+j1 <= shape[0]-1` (the row extent is used for both axes), then tests
`mask[j+j1, i+i1]` and writes `blurring_region[j+j1, i+i1]` — note the
transposed indices — and otherwise raises MaskException. -/
def procPixel (mask : BoolGrid) (h : Nat) (i j : Nat) :
    List (Int × Int) → BoolGrid → Except PyErr BoolGrid
  | [], acc => .ok acc
  | (i1, j1) :: rest, acc =>
    if 0 ≤ (i : Int) + i1 ∧ (i : Int) + i1 ≤ (h : Int) - 1
        ∧ 0 ≤ (j : Int) + j1 ∧ (j : Int) + j1 ≤ (h : Int) - 1 then
      match npGet mask ((j : Int) + j1) ((i : Int) + i1) with
      | none => .error .indexError
      | some v =>
        if v then procPixel mask h i j rest acc
        else
          match npSet acc ((j : Int) + j1) ((i : Int) + i1) true with
          | none => .error .indexError
          | some acc2 => procPixel mask h i j rest acc2
    else .error (.maskException boundsMsg)

/-- The outer row-major pixel scan of Mask.blurring_region. -/
def procPixels (mask : BoolGrid) (h : Nat) (offs : List (Int × Int)) :
    List (Nat × Nat) → BoolGrid → Except PyErr BoolGrid
  | [], acc => .ok acc
  | (i, j) :: rest, acc =>
    if maskAt mask i j then
      match procPixel mask h i j offs acc with
      | .error e => .error e
      | .ok acc2 => procPixels mask h offs rest acc2
    else procPixels mask h offs rest acc

/-- Mask.blurring_region of image.py: rejects even kernel dimensions with
MaskException, then scans every included pixel's offset box, marking into an
h-by-w zero array. -/
def blurring_region (mask : BoolGrid) (sz : Int × Int) : Except PyErr BoolGrid :=
  if sz.1 % 2 = 0 ∨ sz.2 % 2 = 0 then .error (.maskException oddMsg)
  else
    procPixels mask mask.length (blurringOffsets sz.1 sz.2)
      (pixelsOf mask.length (mask.headD []).length)
      (List.replicate mask.length (List.replicate (mask.headD []).length false))

/-- The blurring region as the claim and the method docstring describe it:
a pixel is marked iff it is excluded and lies within the
`(psf_size-1)/2` box of some included pixel. -/
def specBlurringRegion (mask : BoolGrid) (sz : Int × Int) : BoolGrid :=
  (List.range mask.length).map (fun r =>
    (List.range (mask.headD []).length).map (fun c =>
      !(maskAt mask r c) &&
        (pixelsOf mask.length (mask.headD []).length).any (fun p =>
          maskAt mask p.1 p.2
          && decide (((r : Int) - p.1).natAbs ≤ ((sz.1 - 1) / 2).toNat)
          && decide (((c : Int) - p.2).natAbs ≤ ((sz.2 - 1) / 2).toNat))))

/-- The eight neighbour offsets tested by Mask.border_pixels, in the source's
evaluation order: `mask[i+1,j] == 0 or mask[i-1,j] == 0 or mask[i,j+1] == 0
or mask[i,j-1] == 0 or mask[i+1,j+1] == 0 or mask[i+1,j-1] == 0 or
mask[i-1,j+1] == 0 or mask[i-1,j-1] == 0`. -/
def borderOffsets : List (Int × Int) :=
  [(1, 0), (-1, 0), (0, 1), (0, -1), (1, 1), (1, -1), (-1, 1), (-1, -1)]

/-- The neighbour test chain of Mask.border_pixels for one included pixel,
with Python's short-circuiting `or`: evaluation stops at the first excluded
neighbour.  Returns the raw (row, col) indices actually accessed and either
IndexError or whether the pixel is a border pixel. -/
def borderTests (mask : BoolGrid) (i j : Nat) :
    List (Int × Int) → List (Int × Int) × Except PyErr Bool
  | [] => ([], .ok false)
  | (di, dj) :: rest =>
    match npGet mask ((i : Int) + di) ((j : Int) + dj) with
    | none => ([((i : Int) + di, (j : Int) + dj)], .error .indexError)
    | some v =>
      if v then
        let res := borderTests mask i j rest
        (((i : Int) + di, (j : Int) + dj) :: res.1, res.2)
      else ([((i : Int) + di, (j : Int) + dj)], .ok true)

/-- The row-major pixel scan of Mask.border_pixels, accumulating the raw
neighbour accesses performed and the border-pixel index list. -/
def borderScan (mask : BoolGrid) :
    List (Nat × Nat) → Nat → List (Int × Int) × Except PyErr (List Nat)
  | [], _ => ([], .ok [])
  | (i, j) :: rest, idx =>
    if maskAt mask i j then
      match borderTests mask i j borderOffsets with
      | (tr, .error e) => (tr, .error e)
      | (tr, .ok isBorder) =>
        let res := borderScan mask rest (idx + 1)
        (tr ++ res.1,
          match res.2 with
          | .error e => .error e
          | .ok bs => .ok (if isBorder then idx :: bs else bs))
    else borderScan mask rest idx

/-- Mask.border_pixels of image.py: the raw neighbour accesses performed and
the resulting border-pixel index list (or the exception raised). -/
def border_pixels (mask : BoolGrid) : List (Int × Int) × Except PyErr (List Nat) :=
  borderScan mask (pixelsOf mask.length (mask.headD []).length) 0

/-- Whether a raw (row, col) access lies inside the intended array bounds
(no wrap-around, no overrun). -/
def rawInBounds (h w : Nat) (rc : Int × Int) : Bool :=
  decide (0 ≤ rc.1) && decide (rc.1 < (h : Int)) &&
    decide (0 ≤ rc.2) && decide (rc.2 < (w : Int))

/-- Whether every neighbour access performed by Mask.border_pixels is inside
the intended array bounds. -/
def traceInBounds (mask : BoolGrid) : Bool :=
  (border_pixels mask).1.all (rawInBounds mask.length (mask.headD []).length)

deriving instance DecidableEq for Except

/-- A rectangular h-by-w boolean array. -/
def Rect (g : BoolGrid) (h w : Nat) : Prop := g.length = h ∧ ∀ row ∈ g, row.length = w

instance (g : BoolGrid) (h w : Nat) : Decidable (Rect g h w) :=
  decidable_of_iff (g.length = h ∧ ∀ row ∈ g, row.length = w) Iff.rfl

/-- Helper: pyIdx of an index already in range. -/
theorem pyIdx_of_lt (n : Nat) (i : Int) (h1 : 0 ≤ i) (h2 : i < (n : Int)) :
    pyIdx n i = some i.toNat := by
  simp [pyIdx, h1, h2]

/-- Helper: a numpy read inside the array bounds succeeds on a rectangular
array. -/
theorem npGet_some (grid : BoolGrid) (h w : Nat) (hr : Rect grid h w) (r c : Int)
    (h1 : 0 ≤ r) (h2 : r < (h : Int)) (h3 : 0 ≤ c) (h4 : c < (w : Int)) :
    ∃ v, npGet grid r c = some v := by
  obtain ⟨hl, hrow⟩ := hr
  subst hl
  have hrn : r.toNat < grid.length := by omega
  have hget : grid[r.toNat]? = some grid[r.toNat] := List.getElem?_eq_getElem hrn
  have hlen : grid[r.toNat].length = w := hrow _ (List.getElem_mem hrn)
  have hcn : c.toNat < grid[r.toNat].length := by omega
  refine ⟨grid[r.toNat][c.toNat], ?_⟩
  simp only [npGet, pyIdx_of_lt _ _ h1 (by omega : r < (grid.length : Int)),
    Option.some_bind, hget, hlen, pyIdx_of_lt _ _ h3 h4]
  exact List.getElem?_eq_getElem hcn

/-- Helper: a numpy write inside the array bounds succeeds on a rectangular
array and preserves the shape. -/
theorem npSet_some (grid : BoolGrid) (h w : Nat) (hr : Rect grid h w) (r c : Int) (v : Bool)
    (h1 : 0 ≤ r) (h2 : r < (h : Int)) (h3 : 0 ≤ c) (h4 : c < (w : Int)) :
    ∃ g2, npSet grid r c v = some g2 ∧ Rect g2 h w := by
  obtain ⟨hl, hrow⟩ := hr
  subst hl
  have hrn : r.toNat < grid.length := by omega
  have hget : grid[r.toNat]? = some grid[r.toNat] := List.getElem?_eq_getElem hrn
  have hlen : grid[r.toNat].length = w := hrow _ (List.getElem_mem hrn)
  refine ⟨grid.set r.toNat (grid[r.toNat].set c.toNat v), ?_, ?_, ?_⟩
  · simp only [npSet, pyIdx_of_lt _ _ h1 (by omega : r < (grid.length : Int)),
      Option.some_bind, hget, hlen, pyIdx_of_lt _ _ h3 h4]
  · simp
  · intro row hmem
    rcases List.mem_or_eq_of_mem_set hmem with hin | heq
    · exact hrow row hin
    · rw [heq]
      simpa using hlen

/-- Helper: the zero array allocated by blurring_region is rectangular. -/
theorem rect_replicate (h w : Nat) : Rect (List.replicate h (List.replicate w false)) h w := by
  refine ⟨by simp, ?_⟩
  intro row hmem
  rw [List.eq_of_mem_replicate hmem]
  simp

/-- Helper: membership in the row-major pixel list. -/
theorem mem_pixelsOf (h w i j : Nat) : (i, j) ∈ pixelsOf h w ↔ i < h ∧ j < w := by
  simp [pixelsOf, List.mem_flatMap, List.mem_map, List.mem_range]

/-- Helper: the offset loop of blurring_region either completes with a
rectangular accumulator or raises the bounds MaskException (for a square
rectangular mask no other fault is reachable). -/
theorem procPixel_ok_or_bounds (mask : BoolGrid) (h : Nat) (hr : Rect mask h h) (i j : Nat) :
    ∀ (offs : List (Int × Int)) (acc : BoolGrid), Rect acc h h →
      (∃ acc2, procPixel mask h i j offs acc = .ok acc2 ∧ Rect acc2 h h)
      ∨ procPixel mask h i j offs acc = .error (.maskException boundsMsg) := by
  intro offs
  induction offs with
  | nil => exact fun acc ha => .inl ⟨acc, rfl, ha⟩
  | cons o rest ih =>
    intro acc ha
    obtain ⟨i1, j1⟩ := o
    simp only [procPixel]
    by_cases hc : 0 ≤ (i : Int) + i1 ∧ (i : Int) + i1 ≤ (h : Int) - 1
        ∧ 0 ≤ (j : Int) + j1 ∧ (j : Int) + j1 ≤ (h : Int) - 1
    · rw [if_pos hc]
      obtain ⟨v, hv⟩ := npGet_some mask h h hr ((j : Int) + j1) ((i : Int) + i1)
        (by omega) (by omega) (by omega) (by omega)
      rw [hv]
      cases v with
      | true => simpa using ih acc ha
      | false =>
        obtain ⟨acc2, hs, ha2⟩ := npSet_some acc h h ha ((j : Int) + j1) ((i : Int) + i1) true
          (by omega) (by omega) (by omega) (by omega)
        rw [hs]
        simpa using ih acc2 ha2
    · rw [if_neg hc]
      exact .inr rfl

/-- Helper: an offset whose box check fails makes the offset loop raise the
bounds MaskException. -/
theorem procPixel_escape (mask : BoolGrid) (h : Nat) (hr : Rect mask h h) (i j : Nat) :
    ∀ (offs : List (Int × Int)) (acc : BoolGrid), Rect acc h h →
      (∃ o ∈ offs, ¬(0 ≤ (i : Int) + o.1 ∧ (i : Int) + o.1 ≤ (h : Int) - 1
        ∧ 0 ≤ (j : Int) + o.2 ∧ (j : Int) + o.2 ≤ (h : Int) - 1)) →
      procPixel mask h i j offs acc = .error (.maskException boundsMsg) := by
  intro offs
  induction offs with
  | nil =>
    intro acc _ hex
    obtain ⟨o, ho, _⟩ := hex
    simp at ho
  | cons p rest ih =>
    intro acc ha hex
    obtain ⟨i1, j1⟩ := p
    simp only [procPixel]
    by_cases hc : 0 ≤ (i : Int) + i1 ∧ (i : Int) + i1 ≤ (h : Int) - 1
        ∧ 0 ≤ (j : Int) + j1 ∧ (j : Int) + j1 ≤ (h : Int) - 1
    · rw [if_pos hc]
      obtain ⟨o, ho, hno⟩ := hex
      have ho2 : o ∈ rest := by
        rcases List.mem_cons.mp ho with heq | hm
        · exfalso
          apply hno
          rw [heq]
          exact hc
        · exact hm
      obtain ⟨v, hv⟩ := npGet_some mask h h hr ((j : Int) + j1) ((i : Int) + i1)
        (by omega) (by omega) (by omega) (by omega)
      rw [hv]
      cases v with
      | true => simpa using ih acc ha ⟨o, ho2, hno⟩
      | false =>
        obtain ⟨acc2, hs, ha2⟩ := npSet_some acc h h ha ((j : Int) + j1) ((i : Int) + i1) true
          (by omega) (by omega) (by omega) (by omega)
        rw [hs]
        simpa using ih acc2 ha2 ⟨o, ho2, hno⟩
    · rw [if_neg hc]

/-- Helper: an included pixel whose box check fails for some offset makes the
pixel scan of blurring_region raise the bounds MaskException. -/
theorem procPixels_escape (mask : BoolGrid) (h : Nat) (hr : Rect mask h h)
    (offs : List (Int × Int)) :
    ∀ (ps : List (Nat × Nat)) (acc : BoolGrid), Rect acc h h →
      (∃ p ∈ ps, maskAt mask p.1 p.2 = true
        ∧ ∃ o ∈ offs, ¬(0 ≤ (p.1 : Int) + o.1 ∧ (p.1 : Int) + o.1 ≤ (h : Int) - 1
          ∧ 0 ≤ (p.2 : Int) + o.2 ∧ (p.2 : Int) + o.2 ≤ (h : Int) - 1)) →
      procPixels mask h offs ps acc = .error (.maskException boundsMsg) := by
  intro ps
  induction ps with
  | nil =>
    intro acc _ hex
    obtain ⟨p, hp, _⟩ := hex
    simp at hp
  | cons q rest ih =>
    intro acc ha hex
    obtain ⟨a, b⟩ := q
    simp only [procPixels]
    by_cases hm : maskAt mask a b = true
    · rw [if_pos hm]
      rcases procPixel_ok_or_bounds mask h hr a b offs acc ha with ⟨acc2, hok, ha2⟩ | herr
      · rw [hok]
        obtain ⟨p, hp, hmp, hop⟩ := hex
        rcases List.mem_cons.mp hp with heq | hrest
        · exfalso
          rw [heq] at hop
          have := procPixel_escape mask h hr a b offs acc ha hop
          rw [this] at hok
          exact absurd hok (by simp)
        · exact ih acc2 ha2 ⟨p, hrest, hmp, hop⟩
      · rw [herr]
    · rw [if_neg hm]
      obtain ⟨p, hp, hmp, hop⟩ := hex
      rcases List.mem_cons.mp hp with heq | hrest
      · exfalso
        rw [heq] at hmp
        exact hm hmp
      · exact ih acc ha ⟨p, hrest, hmp, hop⟩

/-- The mask used to exhibit the transposition bug: 5-by-5, included pixel
at row 1, column 2 only. -/
def cMask5 : BoolGrid :=
  [[false, false, false, false, false],
   [false, false, true , false, false],
   [false, false, false, false, false],
   [false, false, false, false, false],
   [false, false, false, false, false]]

/-- The symmetric 3-by-3 mask of Scenario D: centre pixel included. -/
def cMask3 : BoolGrid := [[false, false, false], [false, true, false], [false, false, false]]

/-- C6: blurring_region computes the wrong region on an asymmetric mask: it
tests `mask[j+j1, i+i1]` and writes `blurring_region[j+j1, i+i1]` with the
row and column indices transposed, so for the 5-by-5 mask whose only included
pixel is (1, 2) it marks the box around the transposed position (2, 1)
instead of the excluded neighbours of (1, 2); on the symmetric Scenario D
input the transposition is invisible and the result matches the
specification. -/
theorem blurring_region_transpose_bug :
    blurring_region cMask5 (3, 3) = .ok
      [[false, false, false, false, false],
       [true , true , false, false, false],
       [true , true , true , false, false],
       [true , true , true , false, false],
       [false, false, false, false, false]]
    ∧ specBlurringRegion cMask5 (3, 3) =
      [[false, true , true , true , false],
       [false, true , false, true , false],
       [false, true , true , true , false],
       [false, false, false, false, false],
       [false, false, false, false, false]]
    ∧ blurring_region cMask5 (3, 3) ≠ .ok (specBlurringRegion cMask5 (3, 3))
    ∧ blurring_region cMask3 (3, 3) = .ok (specBlurringRegion cMask3 (3, 3))
    ∧ specBlurringRegion cMask3 (3, 3) =
      [[true, true, true], [true, false, true], [true, true, true]] := by
  decide

/-- Recognises a result that is a raised MaskException (of any message). -/
def isMaskExceptionErr : Except PyErr BoolGrid → Bool
  | .error (.maskException _) => true
  | _ => false

/-- C7 counterexample: the even-kernel failure and the out-of-bounds failure
both raise the single exception type MaskException (the source's only
exception class), differing in message only — not two distinct typed
errors. -/
theorem blurring_region_same_error_type :
    blurring_region [[true]] (2, 2) = .error (.maskException oddMsg)
    ∧ blurring_region [[true]] (3, 3) = .error (.maskException boundsMsg)
    ∧ isMaskExceptionErr (blurring_region [[true]] (2, 2)) =
        isMaskExceptionErr (blurring_region [[true]] (3, 3)) := by
  decide

/-- C7 (amended): an even kernel dimension makes blurring_region raise
MaskException with the odd-size message before any scanning; on a square
rectangular mask with an odd kernel, an included pixel whose offset box
leaves the array bounds makes it raise MaskException with the bounds message
during the scan (no partial result is returned).  Both failure modes raise
the same exception type MaskException, distinguished only by message, rather
than two distinct typed errors. -/
theorem blurring_region_error_behaviour (mask : BoolGrid) (sz : Int × Int) :
    (sz.1 % 2 = 0 ∨ sz.2 % 2 = 0 →
      blurring_region mask sz = .error (.maskException oddMsg))
    ∧ (Rect mask mask.length mask.length →
      ¬(sz.1 % 2 = 0 ∨ sz.2 % 2 = 0) →
      ∀ i j o, i < mask.length → j < mask.length →
        maskAt mask i j = true → o ∈ blurringOffsets sz.1 sz.2 →
        ¬(0 ≤ (i : Int) + o.1 ∧ (i : Int) + o.1 ≤ (mask.length : Int) - 1
          ∧ 0 ≤ (j : Int) + o.2 ∧ (j : Int) + o.2 ≤ (mask.length : Int) - 1) →
        blurring_region mask sz = .error (.maskException boundsMsg)) := by
  constructor
  · intro hev
    unfold blurring_region
    rw [if_pos hev]
  · intro hrect hodd i j o hi hj hm ho hesc
    unfold blurring_region
    rw [if_neg hodd]
    have hw : (mask.headD []).length = mask.length := by
      cases mask with
      | nil => simp at hi
      | cons r rs => exact hrect.2 r (List.mem_cons_self r rs)
    rw [hw]
    apply procPixels_escape mask mask.length hrect (blurringOffsets sz.1 sz.2)
      (pixelsOf mask.length mask.length)
      (List.replicate mask.length (List.replicate mask.length false))
      (rect_replicate mask.length mask.length)
    exact ⟨(i, j), (mem_pixelsOf mask.length mask.length i j).mpr ⟨hi, hj⟩, hm, o, ho, hesc⟩

/-- C7 witness: the amended theorem applied to the 1-by-1 included mask with
the even kernel (2, 2) and the odd kernel (3, 3). -/
theorem blurring_region_error_behaviour_witness :
    blurring_region [[true]] (2, 2) = .error (.maskException oddMsg)
    ∧ blurring_region [[true]] (3, 3) = .error (.maskException boundsMsg) :=
  ⟨(blurring_region_error_behaviour [[true]] (2, 2)).1 (by decide),
   (blurring_region_error_behaviour [[true]] (3, 3)).2 (by decide) (by decide)
     0 0 (-1, -1) (by decide) (by decide) (by decide) (by decide) (by decide)⟩

/-- Helper: the neighbour test chain of border_pixels raises IndexError as
its only error. -/
theorem borderTests_err_only (mask : BoolGrid) (i j : Nat) :
    ∀ (offs : List (Int × Int)) (e : PyErr),
      (borderTests mask i j offs).2 = .error e → e = .indexError := by
  intro offs
  induction offs with
  | nil =>
    intro e he
    simp [borderTests] at he
  | cons o rest ih =>
    intro e he
    obtain ⟨di, dj⟩ := o
    simp only [borderTests] at he
    rcases hg : npGet mask ((i : Int) + di) ((j : Int) + dj) with _ | v
    · rw [hg] at he
      simp only at he
      injection he with he2
      exact he2.symm
    · rw [hg] at he
      cases v with
      | false => simp at he
      | true =>
        simp at he
        exact ih e he

/-- Helper: the pixel scan of border_pixels raises IndexError as its only
error. -/
theorem borderScan_err_only (mask : BoolGrid) :
    ∀ (ps : List (Nat × Nat)) (idx : Nat) (e : PyErr),
      (borderScan mask ps idx).2 = .error e → e = .indexError := by
  intro ps
  induction ps with
  | nil =>
    intro idx e he
    simp [borderScan] at he
  | cons q rest ih =>
    intro idx e he
    obtain ⟨a, b⟩ := q
    simp only [borderScan] at he
    by_cases hm : maskAt mask a b = true
    · rw [if_pos hm] at he
      rcases hq : borderTests mask a b borderOffsets with ⟨tr, res⟩
      rw [hq] at he
      cases res with
      | error e0 =>
        simp only at he
        injection he with he2
        rw [← he2]
        exact borderTests_err_only mask a b borderOffsets e0 (by rw [hq])
      | ok isB =>
        simp only at he
        rcases hr2 : (borderScan mask rest (idx + 1)).2 with e1 | bs
        · rw [hr2] at he
          simp only at he
          injection he with he2
          rw [← he2]
          exact ih (idx + 1) e1 hr2
        · rw [hr2] at he
          simp at he
    · rw [if_neg hm] at he
      exact ih idx e he

/-- Helper: an included pixel whose neighbour test chain faults makes the
pixel scan of border_pixels fault. -/
theorem borderScan_trigger (mask : BoolGrid) :
    ∀ (ps : List (Nat × Nat)) (idx : Nat),
      (∃ p ∈ ps, maskAt mask p.1 p.2 = true
        ∧ ∃ e0, (borderTests mask p.1 p.2 borderOffsets).2 = .error e0) →
      ∃ e, (borderScan mask ps idx).2 = .error e := by
  intro ps
  induction ps with
  | nil =>
    intro idx hex
    obtain ⟨p, hp, _⟩ := hex
    simp at hp
  | cons q rest ih =>
    intro idx hex
    obtain ⟨a, b⟩ := q
    simp only [borderScan]
    by_cases hm : maskAt mask a b = true
    · rw [if_pos hm]
      rcases hq : borderTests mask a b borderOffsets with ⟨tr, res⟩
      cases res with
      | error e0 => exact ⟨e0, rfl⟩
      | ok isB =>
        obtain ⟨p, hp, hmp, e0, he0⟩ := hex
        have hp2 : p ∈ rest := by
          rcases List.mem_cons.mp hp with heq | hrest
          · exfalso
            rw [heq] at he0
            simp only at he0
            rw [hq] at he0
            simp at he0
          · exact hrest
        obtain ⟨e1, he1⟩ := ih (idx + 1) ⟨p, hp2, hmp, e0, he0⟩
        refine ⟨e1, ?_⟩
        simp only
        rw [he1]
    · rw [if_neg hm]
      obtain ⟨p, hp, hmp, e0, he0⟩ := hex
      rcases List.mem_cons.mp hp with heq | hrest
      · exfalso
        rw [heq] at hmp
        exact hm hmp
      · exact ih idx ⟨p, hrest, hmp, e0, he0⟩

/-- Helper: an included pixel in the last row faults immediately: the first
neighbour test reads row i+1 = height, which numpy rejects. -/
theorem borderTests_lastrow (mask : BoolGrid) (i j : Nat) (hh : i + 1 = mask.length) :
    (borderTests mask i j borderOffsets).2 = .error .indexError := by
  have hnone : npGet mask ((i : Int) + 1) ((j : Int) + 0) = none := by
    have hidx : pyIdx mask.length ((i : Int) + 1) = none := by
      unfold pyIdx
      rw [if_neg (by omega), if_neg (by omega)]
    simp [npGet, hidx]
  simp only [borderOffsets, borderTests, hnone]

/-- Helper: a raw access with both components inside the array extents is
in bounds. -/
theorem rawInBounds_true (h w : Nat) (r c : Int) (h1 : 0 ≤ r) (h2 : r < (h : Int))
    (h3 : 0 ≤ c) (h4 : c < (w : Int)) : rawInBounds h w (r, c) = true := by
  simp only [rawInBounds, Bool.and_eq_true, decide_eq_true_eq]
  omega

/-- Helper: for an interior included pixel, every neighbour access of the
test chain is in bounds and the chain completes without fault. -/
theorem borderTests_interior (mask : BoolGrid) (h w : Nat) (hr : Rect mask h w) (i j : Nat)
    (hi0 : 0 < i) (hi1 : i + 1 < h) (hj0 : 0 < j) (hj1 : j + 1 < w) :
    ∀ offs : List (Int × Int), (∀ o ∈ offs, o.1.natAbs ≤ 1 ∧ o.2.natAbs ≤ 1) →
      (∀ rc ∈ (borderTests mask i j offs).1, rawInBounds h w rc = true)
      ∧ ∃ res, (borderTests mask i j offs).2 = .ok res := by
  intro offs
  induction offs with
  | nil =>
    intro _
    exact ⟨by simp [borderTests], false, by simp [borderTests]⟩
  | cons o rest ih =>
    intro hsmall
    obtain ⟨di, dj⟩ := o
    have hd := hsmall (di, dj) (List.mem_cons_self _ _)
    have hb1 : 0 ≤ (i : Int) + di := by omega
    have hb2 : (i : Int) + di < (h : Int) := by omega
    have hb3 : 0 ≤ (j : Int) + dj := by omega
    have hb4 : (j : Int) + dj < (w : Int) := by omega
    obtain ⟨v, hv⟩ := npGet_some mask h w hr _ _ hb1 hb2 hb3 hb4
    simp only [borderTests, hv]
    cases v with
    | true =>
      rw [if_pos rfl]
      obtain ⟨htr, res, hres⟩ := ih (fun o ho => hsmall o (List.mem_cons_of_mem _ ho))
      constructor
      · intro rc hrc
        rcases List.mem_cons.mp hrc with heq | hm
        · rw [heq]
          exact rawInBounds_true h w _ _ hb1 hb2 hb3 hb4
        · exact htr rc hm
      · exact ⟨res, hres⟩
    | false =>
      rw [if_neg (by simp)]
      refine ⟨?_, true, rfl⟩
      intro rc hrc
      rw [List.mem_singleton] at hrc
      rw [hrc]
      exact rawInBounds_true h w _ _ hb1 hb2 hb3 hb4

/-- Helper: when every included pixel is interior, the whole scan accesses
only in-bounds positions and completes without fault. -/
theorem borderScan_interior (mask : BoolGrid) (h w : Nat) (hr : Rect mask h w)
    (hint : ∀ i j, i < h → j < w → maskAt mask i j = true →
      0 < i ∧ i + 1 < h ∧ 0 < j ∧ j + 1 < w) :
    ∀ (ps : List (Nat × Nat)) (idx : Nat), (∀ p ∈ ps, p.1 < h ∧ p.2 < w) →
      (∀ rc ∈ (borderScan mask ps idx).1, rawInBounds h w rc = true)
      ∧ ∃ bs, (borderScan mask ps idx).2 = .ok bs := by
  intro ps
  induction ps with
  | nil =>
    intro idx _
    exact ⟨by simp [borderScan], [], by simp [borderScan]⟩
  | cons q rest ih =>
    intro idx hps
    obtain ⟨a, b⟩ := q
    simp only [borderScan]
    by_cases hm : maskAt mask a b = true
    · rw [if_pos hm]
      have hab := hps (a, b) (List.mem_cons_self _ _)
      obtain ⟨h1, h2, h3, h4⟩ := hint a b hab.1 hab.2 hm
      obtain ⟨htr, res, hres⟩ :=
        borderTests_interior mask h w hr a b h1 h2 h3 h4 borderOffsets (by decide)
      rcases hq : borderTests mask a b borderOffsets with ⟨tr, r2⟩
      rw [hq] at htr hres
      simp only at htr hres
      cases r2 with
      | error e => simp at hres
      | ok isB =>
        obtain ⟨htr2, bs, hbs⟩ := ih (idx + 1) (fun p hp => hps p (List.mem_cons_of_mem _ hp))
        constructor
        · intro rc hrc
          simp only at hrc
          rcases List.mem_append.mp hrc with hh | hh
          · exact htr rc hh
          · exact htr2 rc hh
        · refine ⟨if isB then idx :: bs else bs, ?_⟩
          simp only
          rw [hbs]
    · rw [if_neg hm]
      exact ih idx (fun p hp => hps p (List.mem_cons_of_mem _ hp))

/-- Recognises a scan result that completed without an exception. -/
def resultOk : Except PyErr (List Nat) → Bool
  | .ok _ => true
  | .error _ => false

/-- The mask refuting the claim: 3 rows by 2 columns, included pixel (1, 1)
in the last column; its first tested neighbour (2, 1) is excluded, so the
test chain short-circuits after one in-bounds access. -/
def cMask32 : BoolGrid := [[false, false], [false, true], [false, false]]

/-- C10 counterexample: the 3-by-2 mask has an included pixel in the last
column, yet border_pixels performs only the single in-bounds access (2, 1)
and completes, because the eight neighbour tests short-circuit at the first
excluded neighbour; this refutes both the claimed equivalence and the claim
that an included pixel in the last column reads past the array end. -/
theorem border_pixels_shortcircuit_cex :
    maskAt cMask32 1 1 = true
    ∧ (cMask32.headD []).length = 2
    ∧ border_pixels cMask32 = ([(2, 1)], .ok [0])
    ∧ traceInBounds cMask32 = true := by
  decide

/-- C10 (amended): if no included pixel lies in the first or last row or
column, border_pixels performs only in-bounds neighbour accesses and
completes; an included pixel in the last row always makes the scan read past
the array end (numpy IndexError), because the first neighbour test accesses
row i+1; a performed access with row index -1 silently reads the opposite
edge of the array (row height-1) instead of failing.  An included pixel
elsewhere on the boundary need not fault, since the eight neighbour tests
short-circuit at the first excluded neighbour. -/
theorem border_pixels_access_bounds (mask : BoolGrid) :
    (Rect mask mask.length (mask.headD []).length →
      (∀ i, i < mask.length → ∀ j, j < (mask.headD []).length → maskAt mask i j = true →
        0 < i ∧ i + 1 < mask.length ∧ 0 < j ∧ j + 1 < (mask.headD []).length) →
      traceInBounds mask = true ∧ resultOk (border_pixels mask).2 = true)
    ∧ (∀ i, i < mask.length → ∀ j, j < (mask.headD []).length → maskAt mask i j = true →
        i + 1 = mask.length → (border_pixels mask).2 = .error .indexError)
    ∧ (∀ c : Int, 1 ≤ mask.length →
        npGet mask (-1) c = npGet mask ((mask.length : Int) - 1) c) := by
  refine ⟨?_, ?_, ?_⟩
  · intro hrect hint
    have hball : ∀ p ∈ pixelsOf mask.length (mask.headD []).length,
        p.1 < mask.length ∧ p.2 < (mask.headD []).length := by
      intro p hp
      obtain ⟨a, b⟩ := p
      exact (mem_pixelsOf _ _ a b).mp hp
    obtain ⟨htr, bs, hbs⟩ := borderScan_interior mask mask.length (mask.headD []).length hrect
      (fun i j hi hj hm => hint i hi j hj hm)
      (pixelsOf mask.length (mask.headD []).length) 0 hball
    constructor
    · unfold traceInBounds
      rw [List.all_eq_true]
      intro rc hrc
      exact htr rc hrc
    · unfold border_pixels
      rw [hbs]
      rfl
  · intro i hi j hj hm hlast
    have htrig := borderTests_lastrow mask i j hlast
    obtain ⟨e, he⟩ := borderScan_trigger mask
      (pixelsOf mask.length (mask.headD []).length) 0
      ⟨(i, j), (mem_pixelsOf _ _ i j).mpr ⟨hi, hj⟩, hm, .indexError, htrig⟩
    have he2 := borderScan_err_only mask
      (pixelsOf mask.length (mask.headD []).length) 0 e he
    unfold border_pixels
    rw [he, he2]
  · intro c hc
    have h1 : pyIdx mask.length (-1) = some (mask.length - 1) := by
      unfold pyIdx
      rw [if_neg (by omega), if_pos (by omega)]
      congr 1
      omega
    have h2 : pyIdx mask.length ((mask.length : Int) - 1) = some (mask.length - 1) := by
      unfold pyIdx
      rw [if_pos (by omega)]
      congr 1
      omega
    unfold npGet
    rw [h1, h2]

/-- The all-interior mask used to witness the amended access-bounds
theorem. -/
def cMaskInterior : BoolGrid :=
  [[false, false, false], [false, true, false], [false, false, false]]

/-- C10 witness: the amended theorem applied to an all-interior mask, to a
mask whose included pixel is in the last row, and to the wrap-around read. -/
theorem border_pixels_access_bounds_witness :
    (traceInBounds cMaskInterior = true ∧ resultOk (border_pixels cMaskInterior).2 = true)
    ∧ (border_pixels [[true]]).2 = .error .indexError
    ∧ npGet cMaskInterior (-1) 0 = npGet cMaskInterior ((cMaskInterior.length : Int) - 1) 0 :=
  ⟨(border_pixels_access_bounds cMaskInterior).1 (by decide) (by decide),
   (border_pixels_access_bounds [[true]]).2.1 0 (by decide) 0 (by decide) (by decide) (by decide),
   (border_pixels_access_bounds cMaskInterior).2.2 0 (by decide)⟩

/-
Part C models the GridBorder relocation algorithm of the grids module over
the reals.  The grids module is missing from the sources (only its unit
tests are present), so every definition here is modelled from the
specification's border-relocation description (section 4.5), with the unit
tests of test_grids.py pinning concrete behaviour.
-/

/-- Modelled from the spec: numpy's arctan2(y, x): the angle of the vector
(x, y) from the positive x-axis, counter-clockwise, in (-pi, pi]. -/
noncomputable def arctan2 (y x : ℝ) : ℝ :=
  if 0 < x then Real.arctan (y / x)
  else if x < 0 then
    (if 0 ≤ y then Real.arctan (y / x) + Real.pi else Real.arctan (y / x) - Real.pi)
  else if 0 < y then Real.pi / 2
  else if y < 0 then -(Real.pi / 2)
  else 0

/-- Modelled from the spec: `coordinates_angle_from_x` of GridBorder (grids
module missing from the sources): angle in degrees of coordinate - centre
from the positive x-axis, counter-clockwise, normalized into [0, 360) by
adding 360 degrees to negative raw angles. -/
noncomputable def coordinates_angle_from_x (centre c : ℝ × ℝ) : ℝ :=
  let raw := arctan2 (c.2 - centre.2) (c.1 - centre.1) * 180 / Real.pi
  if raw < 0 then raw + 360 else raw

/-- Modelled from the spec: the distance of a coordinate from the centre. -/
noncomputable def radiusFrom (centre c : ℝ × ℝ) : ℝ :=
  Real.sqrt ((c.1 - centre.1) ^ 2 + (c.2 - centre.2) ^ 2)

/-- Polynomial evaluation on the coefficient list (ascending powers). -/
noncomputable def polyEval (coeffs : List ℝ) (x : ℝ) : ℝ :=
  coeffs.foldr (fun a acc => a + x * acc) 0

/-- Modelled from the spec: GridBorder state: the ordered border-pixel index
set, the polynomial degree, the centre, and the fitted polynomial
coefficients produced by `polynomial_fit_to_border`. -/
structure GridBorder where
  border_pixels : List Nat
  polynomial_degree : Nat
  centre : ℝ × ℝ
  poly : List ℝ

/-- Modelled from the spec: `radius_at_theta` evaluates the fitted
polynomial. -/
noncomputable def radius_at_theta (b : GridBorder) (t : ℝ) : ℝ := polyEval b.poly t

/-- Modelled from the spec: `move_factor(coordinate)`: 1.0 if the coordinate
radius is at most the fitted border radius at its angle, else the ratio
r_border / r. -/
noncomputable def move_factor (b : GridBorder) (c : ℝ × ℝ) : ℝ :=
  if radiusFrom b.centre c ≤ radius_at_theta b (coordinates_angle_from_x b.centre c) then 1
  else radius_at_theta b (coordinates_angle_from_x b.centre c) / radiusFrom b.centre c

/-- Modelled from the spec: `relocated_coordinate(coordinate)`:
centre + move_factor * (coordinate - centre). -/
noncomputable def relocated_coordinate (b : GridBorder) (c : ℝ × ℝ) : ℝ × ℝ :=
  (b.centre.1 + move_factor b c * (c.1 - b.centre.1),
   b.centre.2 + move_factor b c * (c.2 - b.centre.2))

/-- The sum of squared residuals of a polynomial on (theta, radius) points. -/
noncomputable def fitSSE (coeffs : List ℝ) (pts : List (ℝ × ℝ)) : ℝ :=
  (pts.map (fun p => (polyEval coeffs p.1 - p.2) ^ 2)).sum

/-- Modelled from the spec: a degree-d least-squares polynomial fit: d+1
coefficients minimising the sum of squared residuals over the points. -/
def IsLeastSquaresPolyFit (degree : Nat) (pts : List (ℝ × ℝ)) (coeffs : List ℝ) : Prop :=
  coeffs.length = degree + 1
  ∧ ∀ other : List ℝ, other.length = degree + 1 → fitSSE coeffs pts ≤ fitSSE other pts

/-- Modelled from the spec: the thetas of `polynomial_fit_to_border`: for
each border-pixel index, in order, the angle of the indexed coordinate. -/
noncomputable def thetasOf (b : GridBorder) (coords : List (ℝ × ℝ)) : List ℝ :=
  b.border_pixels.map (fun i => coordinates_angle_from_x b.centre (coords.getD i (0, 0)))

/-- Modelled from the spec: the radii of `polynomial_fit_to_border`. -/
noncomputable def radiiOf (b : GridBorder) (coords : List (ℝ × ℝ)) : List ℝ :=
  b.border_pixels.map (fun i => radiusFrom b.centre (coords.getD i (0, 0)))

/-- The border's polynomial is the least-squares fit of the radii against
the thetas of the given coordinates, as `polynomial_fit_to_border`
produces. -/
def FitsBorder (b : GridBorder) (coords : List (ℝ × ℝ)) : Prop :=
  IsLeastSquaresPolyFit b.polynomial_degree
    ((thetasOf b coords).zip (radiiOf b coords)) b.poly

/-- Modelled from the spec: `relocate_coordinates_outside_border`: every
entry is relocated except entries whose index is a border pixel. -/
noncomputable def relocate_coordinates_outside_border (b : GridBorder)
    (coords : List (ℝ × ℝ)) : List (ℝ × ℝ) :=
  coords.mapIdx (fun idx c => if idx ∈ b.border_pixels then c else relocated_coordinate b c)

/-- Modelled from the spec and the unit tests:
`relocate_sub_coordinates_outside_border(coordinates, sub_coordinates)`
relocates every sub-coordinate by its own angle and radius against the
fitted polynomial; the test test__sub_pixels_outside_border__are_relocated
(test_grids.py) requires sub-coordinates to be relocated even when their
parent pixel is a border pixel, so no parent exemption is applied (the
parent coordinates argument is carried for the signature only). -/
noncomputable def relocate_sub_coordinates_outside_border (b : GridBorder)
    (_coords : List (ℝ × ℝ)) (subs : List (List (ℝ × ℝ))) : List (List (ℝ × ℝ)) :=
  subs.map (fun pix => pix.map (relocated_coordinate b))

/-- The sub-coordinate relocation as the claim words it: all sub-coordinates
of a border parent pixel are left unmoved. -/
noncomputable def relocate_sub_claimed (b : GridBorder)
    (subs : List (List (ℝ × ℝ))) : List (List (ℝ × ℝ)) :=
  subs.mapIdx (fun idx pix =>
    if idx ∈ b.border_pixels then pix else pix.map (relocated_coordinate b))

/-- Helper: arctan2 on the positive x-axis. -/
theorem arctan2_zero_pos (x : ℝ) (hx : 0 < x) : arctan2 0 x = 0 := by
  unfold arctan2
  rw [if_pos hx, zero_div, Real.arctan_zero]

/-- Helper: arctan2 on the positive y-axis. -/
theorem arctan2_pos_zero (y : ℝ) (hy : 0 < y) : arctan2 y 0 = Real.pi / 2 := by
  unfold arctan2
  rw [if_neg (lt_irrefl 0), if_neg (lt_irrefl 0), if_pos hy]

/-- Helper: arctan2 on the negative x-axis. -/
theorem arctan2_zero_neg (x : ℝ) (hx : x < 0) : arctan2 0 x = Real.pi := by
  unfold arctan2
  rw [if_neg (by linarith), if_pos hx, if_pos le_rfl, zero_div, Real.arctan_zero, zero_add]

/-- Helper: arctan2 on the negative y-axis. -/
theorem arctan2_neg_zero (y : ℝ) (hy : y < 0) : arctan2 y 0 = -(Real.pi / 2) := by
  unfold arctan2
  rw [if_neg (lt_irrefl 0), if_neg (lt_irrefl 0), if_neg (by linarith), if_pos hy]

/-- Helper: arctan2 of (-t, t) for positive t. -/
theorem arctan2_diag_nxpy (t : ℝ) (ht : 0 < t) : arctan2 t (-t) = 3 / 4 * Real.pi := by
  have ht0 : t ≠ 0 := ne_of_gt ht
  unfold arctan2
  rw [if_neg (by linarith), if_pos (by linarith), if_pos (by linarith)]
  rw [show t / -t = -1 by field_simp, show ((-1 : ℝ)) = -(1 : ℝ) by norm_num,
    Real.arctan_neg, Real.arctan_one]
  ring

/-- Helper: arctan2 of (t, -t) for positive t. -/
theorem arctan2_diag_pxny (t : ℝ) (ht : 0 < t) : arctan2 (-t) t = -(Real.pi / 4) := by
  have ht0 : t ≠ 0 := ne_of_gt ht
  unfold arctan2
  rw [if_pos ht]
  rw [show -t / t = -1 by field_simp, show ((-1 : ℝ)) = -(1 : ℝ) by norm_num,
    Real.arctan_neg, Real.arctan_one]

/-- Helper: the angle of a coordinate on the positive x-axis is 0. -/
theorem angle_posx (x : ℝ) (hx : 0 < x) :
    coordinates_angle_from_x (0, 0) (x, 0) = 0 := by
  simp only [coordinates_angle_from_x]
  norm_num
  rw [arctan2_zero_pos x hx]
  norm_num

/-- Helper: the angle of a coordinate on the positive y-axis is 90. -/
theorem angle_posy (y : ℝ) (hy : 0 < y) :
    coordinates_angle_from_x (0, 0) (0, y) = 90 := by
  simp only [coordinates_angle_from_x]
  norm_num
  rw [arctan2_pos_zero y hy]
  rw [show Real.pi / 2 * 180 / Real.pi = 90 by field_simp; ring]
  norm_num

/-- Helper: the angle of a coordinate on the negative x-axis is 180. -/
theorem angle_negx (x : ℝ) (hx : x < 0) :
    coordinates_angle_from_x (0, 0) (x, 0) = 180 := by
  simp only [coordinates_angle_from_x]
  norm_num
  rw [arctan2_zero_neg x hx]
  rw [show Real.pi * 180 / Real.pi = 180 by field_simp]
  norm_num

/-- Helper: the angle of a coordinate on the negative y-axis is 270. -/
theorem angle_negy (y : ℝ) (hy : y < 0) :
    coordinates_angle_from_x (0, 0) (0, y) = 270 := by
  simp only [coordinates_angle_from_x]
  norm_num
  rw [arctan2_neg_zero y hy]
  rw [show -(Real.pi / 2) * 180 / Real.pi = -90 by field_simp; ring]
  norm_num

/-- Helper: the angle of (-t, t) with t positive is 135. -/
theorem angle_diag_nxpy (t : ℝ) (ht : 0 < t) :
    coordinates_angle_from_x (0, 0) (-t, t) = 135 := by
  simp only [coordinates_angle_from_x]
  norm_num
  rw [arctan2_diag_nxpy t ht]
  rw [show 3 / 4 * Real.pi * 180 / Real.pi = 135 by field_simp; ring]
  norm_num

/-- Helper: the angle of (t, -t) with t positive is 315. -/
theorem angle_diag_pxny (t : ℝ) (ht : 0 < t) :
    coordinates_angle_from_x (0, 0) (t, -t) = 315 := by
  simp only [coordinates_angle_from_x]
  norm_num
  rw [arctan2_diag_pxny t ht]
  rw [show -(Real.pi / 4) * 180 / Real.pi = -45 by field_simp; ring]
  norm_num

/-- Helper: radius of a coordinate on the positive x-axis. -/
theorem radius_posx (x : ℝ) (hx : 0 ≤ x) : radiusFrom (0, 0) (x, 0) = x := by
  simp only [radiusFrom]
  norm_num
  exact Real.sqrt_sq hx

/-- Helper: radius of a coordinate on the positive y-axis. -/
theorem radius_posy (y : ℝ) (hy : 0 ≤ y) : radiusFrom (0, 0) (0, y) = y := by
  simp only [radiusFrom]
  norm_num
  exact Real.sqrt_sq hy

/-- Helper: radius of a coordinate on the negative x-axis. -/
theorem radius_negx (x : ℝ) (hx : x ≤ 0) : radiusFrom (0, 0) (x, 0) = -x := by
  simp only [radiusFrom]
  norm_num
  rw [show x ^ 2 = (-x) ^ 2 by ring]
  exact Real.sqrt_sq (by linarith)

/-- Helper: radius of a coordinate on the negative y-axis. -/
theorem radius_negy (y : ℝ) (hy : y ≤ 0) : radiusFrom (0, 0) (0, y) = -y := by
  simp only [radiusFrom]
  norm_num
  rw [show y ^ 2 = (-y) ^ 2 by ring]
  exact Real.sqrt_sq (by linarith)

/-- Helper: radius of (-t, t). -/
theorem radius_diag_nxpy (t : ℝ) (ht : 0 ≤ t) :
    radiusFrom (0, 0) (-t, t) = t * Real.sqrt 2 := by
  simp only [radiusFrom]
  norm_num
  rw [show t ^ 2 + t ^ 2 = (t * Real.sqrt 2) ^ 2 by
    rw [mul_pow, Real.sq_sqrt (by norm_num : (0 : ℝ) ≤ 2)]; ring]
  exact Real.sqrt_sq (by positivity)

/-- Helper: radius of (t, -t). -/
theorem radius_diag_pxny (t : ℝ) (ht : 0 ≤ t) :
    radiusFrom (0, 0) (t, -t) = t * Real.sqrt 2 := by
  simp only [radiusFrom]
  norm_num
  rw [show t ^ 2 + t ^ 2 = (t * Real.sqrt 2) ^ 2 by
    rw [mul_pow, Real.sq_sqrt (by norm_num : (0 : ℝ) ≤ 2)]; ring]
  exact Real.sqrt_sq (by positivity)

/-- Helper: arctan2 is invariant under scaling the vector by a positive
factor. -/
theorem arctan2_smul (y x k : ℝ) (hk : 0 < k) : arctan2 (k * y) (k * x) = arctan2 y x := by
  have hk0 : k ≠ 0 := ne_of_gt hk
  unfold arctan2
  rcases lt_trichotomy x 0 with hx | hx | hx
  · have hkx : k * x < 0 := mul_neg_of_pos_of_neg hk hx
    have hdiv : k * y / (k * x) = y / x := mul_div_mul_left y x hk0
    by_cases hy : 0 ≤ y
    · rw [if_neg (by linarith), if_pos hkx, if_pos (mul_nonneg (le_of_lt hk) hy),
        if_neg (by linarith), if_pos hx, if_pos hy, hdiv]
    · push_neg at hy
      rw [if_neg (by linarith), if_pos hkx, if_neg (by nlinarith),
        if_neg (by linarith), if_pos hx, if_neg (by linarith), hdiv]
  · subst hx
    rw [mul_zero]
    rw [if_neg (lt_irrefl 0), if_neg (lt_irrefl 0), if_neg (lt_irrefl 0), if_neg (lt_irrefl 0)]
    rcases lt_trichotomy y 0 with hy | hy | hy
    · have hky : k * y < 0 := mul_neg_of_pos_of_neg hk hy
      rw [if_neg (by linarith), if_pos hky, if_neg (by linarith), if_pos hy]
    · subst hy
      rw [mul_zero]
    · have hky : 0 < k * y := mul_pos hk hy
      rw [if_pos hky, if_pos hy]
  · have hkx : 0 < k * x := mul_pos hk hx
    rw [if_pos hkx, if_pos hx, mul_div_mul_left y x hk0]

/-- Helper: the angle function applied to an explicit pair, unfolded. -/
theorem angle_mk (centre : ℝ × ℝ) (x y : ℝ) :
    coordinates_angle_from_x centre (x, y) =
      (if arctan2 (y - centre.2) (x - centre.1) * 180 / Real.pi < 0
       then arctan2 (y - centre.2) (x - centre.1) * 180 / Real.pi + 360
       else arctan2 (y - centre.2) (x - centre.1) * 180 / Real.pi) := rfl

/-- Helper: the radius function applied to an explicit pair, unfolded. -/
theorem radius_mk (centre : ℝ × ℝ) (x y : ℝ) :
    radiusFrom centre (x, y) = Real.sqrt ((x - centre.1) ^ 2 + (y - centre.2) ^ 2) := rfl

/-- Helper: the angle is invariant under moving a coordinate towards or away
from the centre by a positive factor. -/
theorem angle_smul (centre : ℝ × ℝ) (x y k : ℝ) (hk : 0 < k) :
    coordinates_angle_from_x centre
      (centre.1 + k * (x - centre.1), centre.2 + k * (y - centre.2))
      = coordinates_angle_from_x centre (x, y) := by
  rw [angle_mk, angle_mk,
    show centre.2 + k * (y - centre.2) - centre.2 = k * (y - centre.2) by ring,
    show centre.1 + k * (x - centre.1) - centre.1 = k * (x - centre.1) by ring,
    arctan2_smul (y - centre.2) (x - centre.1) k hk]

/-- Helper: the radius scales with the move factor. -/
theorem radius_smul (centre : ℝ × ℝ) (x y k : ℝ) (hk : 0 ≤ k) :
    radiusFrom centre (centre.1 + k * (x - centre.1), centre.2 + k * (y - centre.2))
      = k * radiusFrom centre (x, y) := by
  rw [radius_mk, radius_mk,
    show (centre.1 + k * (x - centre.1) - centre.1) ^ 2 +
        (centre.2 + k * (y - centre.2) - centre.2) ^ 2
      = k ^ 2 * ((x - centre.1) ^ 2 + (y - centre.2) ^ 2) by ring]
  rw [Real.sqrt_mul (sq_nonneg k), Real.sqrt_sq hk]

/-- Helper: a coordinate at or inside the fitted border is not moved. -/
theorem relocated_of_le (b : GridBorder) (d : ℝ × ℝ)
    (hd : radiusFrom b.centre d ≤ radius_at_theta b (coordinates_angle_from_x b.centre d)) :
    relocated_coordinate b d = d := by
  unfold relocated_coordinate move_factor
  rw [if_pos hd]
  exact Prod.ext_iff.mpr
    ⟨by show b.centre.1 + 1 * (d.1 - b.centre.1) = d.1; ring,
     by show b.centre.2 + 1 * (d.2 - b.centre.2) = d.2; ring⟩

/-- Helper: the centre itself is a fixed point of relocation, whatever the
move factor evaluates to there. -/
theorem relocated_centre (b : GridBorder) : relocated_coordinate b b.centre = b.centre := by
  unfold relocated_coordinate
  exact Prod.ext_iff.mpr
    ⟨by show b.centre.1 + move_factor b b.centre * (b.centre.1 - b.centre.1) = b.centre.1; ring,
     by show b.centre.2 + move_factor b b.centre * (b.centre.2 - b.centre.2) = b.centre.2; ring⟩

/-- Helper: a coordinate strictly outside the fitted border is scaled by
r_border / r. -/
theorem relocated_of_gt (b : GridBorder) (c : ℝ × ℝ)
    (h : ¬ radiusFrom b.centre c ≤ radius_at_theta b (coordinates_angle_from_x b.centre c)) :
    relocated_coordinate b c =
      (b.centre.1 + radius_at_theta b (coordinates_angle_from_x b.centre c) /
          radiusFrom b.centre c * (c.1 - b.centre.1),
       b.centre.2 + radius_at_theta b (coordinates_angle_from_x b.centre c) /
          radiusFrom b.centre c * (c.2 - b.centre.2)) := by
  unfold relocated_coordinate move_factor
  rw [if_neg h]

/-- Helper: relocation is idempotent at every coordinate whose fitted border
radius is nonnegative. -/
theorem relocated_idem (b : GridBorder) (c : ℝ × ℝ)
    (hnn : 0 ≤ radius_at_theta b (coordinates_angle_from_x b.centre c)) :
    relocated_coordinate b (relocated_coordinate b c) = relocated_coordinate b c := by
  by_cases h1 : radiusFrom b.centre c ≤ radius_at_theta b (coordinates_angle_from_x b.centre c)
  · rw [relocated_of_le b c h1]
    exact relocated_of_le b c h1
  · have h1' : radius_at_theta b (coordinates_angle_from_x b.centre c) < radiusFrom b.centre c :=
      not_le.mp h1
    have hr0 : 0 < radiusFrom b.centre c := lt_of_le_of_lt hnn h1'
    by_cases h2 : radius_at_theta b (coordinates_angle_from_x b.centre c) = 0
    · have hc2 : relocated_coordinate b c = b.centre := by
        rw [relocated_of_gt b c h1, h2]
        exact Prod.ext_iff.mpr
          ⟨by show b.centre.1 + 0 / radiusFrom b.centre c * (c.1 - b.centre.1) = b.centre.1;
              rw [zero_div]; ring,
           by show b.centre.2 + 0 / radiusFrom b.centre c * (c.2 - b.centre.2) = b.centre.2;
              rw [zero_div]; ring⟩
      rw [hc2, relocated_centre]
    · have h3 : 0 < radius_at_theta b (coordinates_angle_from_x b.centre c) :=
        lt_of_le_of_ne hnn (Ne.symm h2)
      have hkpos : 0 <
          radius_at_theta b (coordinates_angle_from_x b.centre c) / radiusFrom b.centre c :=
        div_pos h3 hr0
      rw [relocated_of_gt b c h1]
      apply relocated_of_le
      rw [angle_smul b.centre c.1 c.2 _ hkpos,
        radius_smul b.centre c.1 c.2 _ (le_of_lt hkpos)]
      simp only [Prod.mk.eta]
      rw [div_mul_cancel₀ _ (ne_of_gt hr0)]

/-- C4 (amended): for every border state, move_factor returns 1.0 when the
coordinate radius is at most the fitted radius at its angle and r_border / r
otherwise; relocated_coordinate is centre + move_factor * (c - centre) and is
the identity inside the border; and applying relocated_coordinate twice
equals applying it once at every coordinate whose fitted border radius at
its angle is nonnegative.  (Unrestricted idempotence fails: a fitted cubic
can be negative at some angle, making the move factor negative and sending
the coordinate to the opposite ray — see the counterexample.) -/
theorem border_relocation_spec (b : GridBorder) (c : ℝ × ℝ)
    (hnn : 0 ≤ radius_at_theta b (coordinates_angle_from_x b.centre c)) :
    (radiusFrom b.centre c ≤ radius_at_theta b (coordinates_angle_from_x b.centre c) →
      move_factor b c = 1)
    ∧ (¬ radiusFrom b.centre c ≤ radius_at_theta b (coordinates_angle_from_x b.centre c) →
      move_factor b c =
        radius_at_theta b (coordinates_angle_from_x b.centre c) / radiusFrom b.centre c)
    ∧ relocated_coordinate b c =
        (b.centre.1 + move_factor b c * (c.1 - b.centre.1),
         b.centre.2 + move_factor b c * (c.2 - b.centre.2))
    ∧ (radiusFrom b.centre c ≤ radius_at_theta b (coordinates_angle_from_x b.centre c) →
      relocated_coordinate b c = c)
    ∧ relocated_coordinate b (relocated_coordinate b c) = relocated_coordinate b c := by
  refine ⟨?_, ?_, rfl, fun h => relocated_of_le b c h, relocated_idem b c hnn⟩
  · intro h
    unfold move_factor
    rw [if_pos h]
  · intro h
    unfold move_factor
    rw [if_neg h]

/-- Helper: the sum of squared residuals is nonnegative. -/
theorem fitSSE_nonneg (coeffs : List ℝ) (pts : List (ℝ × ℝ)) : 0 ≤ fitSSE coeffs pts := by
  unfold fitSSE
  apply List.sum_nonneg
  intro a ha
  obtain ⟨p, _, rfl⟩ := List.mem_map.mp ha
  positivity

/-- The border refuting unrestricted idempotence: the degree-3 least-squares
fit (here an exact interpolation) of the four border coordinates
(100, 0), (0, 1), (-1, 0), (0, -1), whose radii are 100, 1, 1, 1 at thetas
0, 90, 180, 270.  The interpolating cubic in theta is
100 - (121/60) t + (11/900) t^2 - (11/486000) t^3, which is negative at
theta = 135 and theta = 315. -/
noncomputable def border100 : GridBorder :=
  ⟨[0, 1, 2, 3], 3, (0, 0), [100, -(121 / 60), 11 / 900, -(11 / 486000)]⟩

/-- The coordinates border100 is fitted to. -/
noncomputable def coords100 : List (ℝ × ℝ) := [(100, 0), (0, 1), (-1, 0), (0, -1)]

/-- Helper: the fitted polynomial of border100 at the four node angles. -/
theorem border100_nodes :
    radius_at_theta border100 0 = 100 ∧ radius_at_theta border100 90 = 1
    ∧ radius_at_theta border100 180 = 1 ∧ radius_at_theta border100 270 = 1 := by
  refine ⟨?_, ?_, ?_, ?_⟩ <;> norm_num [radius_at_theta, border100, polyEval]

/-- Helper: the fitted polynomial of border100 is negative at 135 and 315. -/
theorem border100_neg :
    radius_at_theta border100 135 = -(83 / 16)
    ∧ radius_at_theta border100 315 = -(479 / 16) := by
  constructor <;> norm_num [radius_at_theta, border100, polyEval]

/-- Helper: border100 really is the least-squares fit of coords100. -/
theorem border100_fits : FitsBorder border100 coords100 := by
  unfold FitsBorder
  have ht : thetasOf border100 coords100 = [0, 90, 180, 270] := by
    simp only [thetasOf, border100, coords100, List.map_cons, List.map_nil,
      List.getD_cons_zero, List.getD_cons_succ]
    rw [angle_posx 100 (by norm_num), angle_posy 1 (by norm_num),
      angle_negx (-1) (by norm_num), angle_negy (-1) (by norm_num)]
  have hr : radiiOf border100 coords100 = [100, 1, 1, 1] := by
    simp only [radiiOf, border100, coords100, List.map_cons, List.map_nil,
      List.getD_cons_zero, List.getD_cons_succ]
    rw [radius_posx 100 (by norm_num), radius_posy 1 (by norm_num),
      radius_negx (-1) (by norm_num), radius_negy (-1) (by norm_num)]
    norm_num
  rw [ht, hr]
  constructor
  · rfl
  · intro other _
    have hz : fitSSE border100.poly
        (List.zip [0, 90, 180, 270] [100, 1, 1, 1]) = 0 := by
      simp [fitSSE, border100, polyEval]
      norm_num
    rw [hz]
    exact fitSSE_nonneg other _

/-- C4 counterexample: border100 is a genuine fitted border (zero-residual
least-squares cubic over real border coordinates with positive radii), yet
relocating the coordinate (-1, 1) twice does not equal relocating it once:
the fitted radius at angle 135 is negative, so the move factor is negative
and the first relocation lands on the opposite ray (angle 315), where the
coordinate is again outside the (negative) fitted radius and moves again. -/
theorem border_relocation_not_idempotent :
    FitsBorder border100 coords100
    ∧ relocated_coordinate border100 (relocated_coordinate border100 (-1, 1))
        ≠ relocated_coordinate border100 (-1, 1) := by
  refine ⟨border100_fits, ?_⟩
  have hs2 : (0 : ℝ) < Real.sqrt 2 := Real.sqrt_pos.mpr (by norm_num)
  have hs2n : Real.sqrt 2 ≠ 0 := ne_of_gt hs2
  have hcen : border100.centre = ((0 : ℝ), (0 : ℝ)) := rfl
  have hang1 : coordinates_angle_from_x border100.centre (-1, 1) = 135 := by
    rw [hcen]
    exact angle_diag_nxpy 1 one_pos
  have hrad1 : radiusFrom border100.centre (-1, 1) = Real.sqrt 2 := by
    rw [hcen]
    have h := radius_diag_nxpy 1 (by norm_num)
    simpa using h
  have hgt1 : ¬ radiusFrom border100.centre (-1, 1) ≤
      radius_at_theta border100 (coordinates_angle_from_x border100.centre (-1, 1)) := by
    rw [hang1, hrad1, border100_neg.1]
    intro hle
    nlinarith [Real.sqrt_nonneg 2]
  have hc1 : relocated_coordinate border100 (-1, 1) =
      (83 / (16 * Real.sqrt 2), -(83 / (16 * Real.sqrt 2))) := by
    rw [relocated_of_gt border100 (-1, 1) hgt1, hang1, border100_neg.1, hrad1, hcen]
    rw [Prod.mk.injEq]
    constructor
    · show (0 : ℝ) + -(83 / 16) / Real.sqrt 2 * (-1 - 0) = 83 / (16 * Real.sqrt 2)
      field_simp
    · show (0 : ℝ) + -(83 / 16) / Real.sqrt 2 * (1 - 0) = -(83 / (16 * Real.sqrt 2))
      field_simp
  have hposa : (0 : ℝ) < 83 / (16 * Real.sqrt 2) := by positivity
  have hang2 : coordinates_angle_from_x border100.centre
      (83 / (16 * Real.sqrt 2), -(83 / (16 * Real.sqrt 2))) = 315 := by
    rw [hcen]
    exact angle_diag_pxny (83 / (16 * Real.sqrt 2)) hposa
  have hrad2 : radiusFrom border100.centre
      (83 / (16 * Real.sqrt 2), -(83 / (16 * Real.sqrt 2))) = 83 / 16 := by
    rw [hcen, radius_diag_pxny (83 / (16 * Real.sqrt 2)) (le_of_lt hposa)]
    have h22 : Real.sqrt 2 * Real.sqrt 2 = 2 := Real.mul_self_sqrt (by norm_num)
    field_simp
    ring
  have hgt2 : ¬ radiusFrom border100.centre
      (83 / (16 * Real.sqrt 2), -(83 / (16 * Real.sqrt 2))) ≤
      radius_at_theta border100 (coordinates_angle_from_x border100.centre
        (83 / (16 * Real.sqrt 2), -(83 / (16 * Real.sqrt 2)))) := by
    rw [hang2, hrad2, border100_neg.2]
    intro hle
    linarith
  have hc2 : relocated_coordinate border100
      (83 / (16 * Real.sqrt 2), -(83 / (16 * Real.sqrt 2))) =
      (-(479 / (16 * Real.sqrt 2)), 479 / (16 * Real.sqrt 2)) := by
    rw [relocated_of_gt border100 _ hgt2, hang2, border100_neg.2, hrad2, hcen]
    rw [Prod.mk.injEq]
    constructor
    · show (0 : ℝ) + -(479 / 16) / (83 / 16) * (83 / (16 * Real.sqrt 2) - 0) =
        -(479 / (16 * Real.sqrt 2))
      field_simp
      ring
    · show (0 : ℝ) + -(479 / 16) / (83 / 16) * (-(83 / (16 * Real.sqrt 2)) - 0) =
        479 / (16 * Real.sqrt 2)
      field_simp
      ring
  rw [hc1, hc2]
  intro heq
  have h1 := congrArg Prod.fst heq
  simp only at h1
  have : (479 : ℝ) / (16 * Real.sqrt 2) > 0 := by positivity
  nlinarith [h1, hposa]

/-- The border fitted to the four cardinal unit coordinates of the sub-grid
relocation tests: the degree-3 least-squares fit of radii 1, 1, 1, 1 at
thetas 0, 90, 180, 270 is the constant polynomial 1. -/
noncomputable def unitCircleBorder : GridBorder := ⟨[0, 1, 2, 3], 3, (0, 0), [1, 0, 0, 0]⟩

/-- Helper: the fitted polynomial of the unit-circle border is constantly
one. -/
theorem polyEval_unit (x : ℝ) : polyEval [1, 0, 0, 0] x = 1 := by
  simp [polyEval]

/-- C4 witness: the amended theorem applied to the unit-circle border and
the outside coordinate (2, 0): the fitted radius is nonnegative there, and
relocation is idempotent. -/
theorem border_relocation_spec_witness :
    0 ≤ radius_at_theta unitCircleBorder
        (coordinates_angle_from_x unitCircleBorder.centre (2, 0))
    ∧ relocated_coordinate unitCircleBorder (relocated_coordinate unitCircleBorder (2, 0))
        = relocated_coordinate unitCircleBorder (2, 0) := by
  have h : 0 ≤ radius_at_theta unitCircleBorder
      (coordinates_angle_from_x unitCircleBorder.centre (2, 0)) := by
    rw [show radius_at_theta unitCircleBorder
        (coordinates_angle_from_x unitCircleBorder.centre (2, 0)) = 1 from polyEval_unit _]
    norm_num
  exact ⟨h, (border_relocation_spec unitCircleBorder (2, 0) h).2.2.2.2⟩

/-- The parent coordinates of the sub-grid relocation tests: the four
cardinal unit points, all of them border pixels. -/
noncomputable def cardinalCoords : List (ℝ × ℝ) := [(1, 0), (0, 1), (-1, 0), (0, -1)]

/-- The sub-coordinates of test__sub_pixels_outside_border__are_relocated. -/
noncomputable def testSubCoords : List (List (ℝ × ℝ)) :=
  [[(2, 0), (0.2, 0), (2, 2), (0.4, 0)],
   [(0, 2), (-2, 2), (0.3, 0), (0.4, 0)],
   [(-2, 0), (0.2, 0), (0.3, 0), (2, -2)],
   [(0, -2), (0.2, 0), (0.3, 0), (0.4, 0)]]

/-- Helper: the unit-circle border is the least-squares fit of the cardinal
coordinates. -/
theorem unit_fit : FitsBorder unitCircleBorder cardinalCoords := by
  unfold FitsBorder
  have hr : radiiOf unitCircleBorder cardinalCoords = [1, 1, 1, 1] := by
    simp only [radiiOf, unitCircleBorder, cardinalCoords, List.map_cons, List.map_nil,
      List.getD_cons_zero, List.getD_cons_succ]
    rw [radius_posx 1 (by norm_num), radius_posy 1 (by norm_num),
      radius_negx (-1) (by norm_num), radius_negy (-1) (by norm_num)]
    norm_num
  constructor
  · rfl
  · intro other _
    have hz : fitSSE unitCircleBorder.poly
        ((thetasOf unitCircleBorder cardinalCoords).zip
          (radiiOf unitCircleBorder cardinalCoords)) = 0 := by
      rw [hr]
      simp only [thetasOf, unitCircleBorder, cardinalCoords, List.map_cons, List.map_nil,
        List.getD_cons_zero, List.getD_cons_succ]
      simp [fitSSE, List.zip, polyEval_unit]
    rw [hz]
    exact fitSSE_nonneg other _

/-- Helper: the unit-circle border relocates (2, 0) to (1, 0). -/
theorem reloc_unit_two_zero : relocated_coordinate unitCircleBorder (2, 0) = (1, 0) := by
  have hrad : radiusFrom unitCircleBorder.centre (2, 0) = 2 := by
    rw [show unitCircleBorder.centre = ((0 : ℝ), (0 : ℝ)) from rfl]
    exact radius_posx 2 (by norm_num)
  have hpoly : radius_at_theta unitCircleBorder
      (coordinates_angle_from_x unitCircleBorder.centre (2, 0)) = 1 := polyEval_unit _
  have hgt : ¬ radiusFrom unitCircleBorder.centre (2, 0) ≤
      radius_at_theta unitCircleBorder
        (coordinates_angle_from_x unitCircleBorder.centre (2, 0)) := by
    rw [hrad, hpoly]
    norm_num
  rw [relocated_of_gt unitCircleBorder (2, 0) hgt, hpoly, hrad,
    show unitCircleBorder.centre = ((0 : ℝ), (0 : ℝ)) from rfl]
  rw [Prod.mk.injEq]
  constructor <;> norm_num

/-- Helper: entry `i` of a mapped list equals the function at entry `i`,
whatever the defaults, when `i` is in range. -/
theorem getD_map_lt {α β : Type} (f : α → β) (l : List α) (d1 : β) (d2 : α) :
    ∀ i : Nat, i < l.length → (l.map f).getD i d1 = f (l.getD i d2) := by
  induction l with
  | nil =>
    intro i hi
    simp at hi
  | cons a l ih =>
    intro i hi
    cases i with
    | zero => simp
    | succ n =>
      simp only [List.map_cons, List.getD_cons_succ]
      exact ih n (by simpa using hi)

/-- C5 counterexample: with the fitted unit-circle border whose border
pixels are all four parents, the repository's own unit test requires the
sub-coordinate (2, 0) of border parent 0 to be relocated to (1, 0); the
claim's parent-exemption semantics would leave it at (2, 0). -/
theorem relocate_sub_border_parent_cex :
    FitsBorder unitCircleBorder cardinalCoords
    ∧ 0 ∈ unitCircleBorder.border_pixels
    ∧ ((relocate_sub_coordinates_outside_border unitCircleBorder cardinalCoords
        testSubCoords).getD 0 []).getD 0 (0, 0) = (1, 0)
    ∧ ((relocate_sub_claimed unitCircleBorder testSubCoords).getD 0 []).getD 0 (0, 0)
        = (2, 0)
    ∧ ((1 : ℝ), (0 : ℝ)) ≠ ((2 : ℝ), (0 : ℝ)) := by
  refine ⟨unit_fit, by simp [unitCircleBorder], ?_, ?_, ?_⟩
  · unfold relocate_sub_coordinates_outside_border
    simp only [testSubCoords, List.map_cons, List.getD_cons_zero]
    exact reloc_unit_two_zero
  · unfold relocate_sub_claimed
    simp only [testSubCoords, List.mapIdx_cons, List.getD_cons_zero]
    rw [if_pos (by simp [unitCircleBorder])]
    simp
  · intro h
    have h2 := congrArg Prod.fst h
    norm_num at h2

/-- C5 (amended): every sub-coordinate is relocated using its own angle and
radius against the fitted border polynomial, regardless of whether its
parent pixel's index is a border pixel; the parent-exemption of the original
claim contradicts the repository's unit test
test__sub_pixels_outside_border__are_relocated. -/
theorem relocate_sub_pointwise (b : GridBorder) (coords : List (ℝ × ℝ))
    (subs : List (List (ℝ × ℝ))) (i k : Nat)
    (hi : i < subs.length) (hk : k < (subs.getD i []).length) :
    ((relocate_sub_coordinates_outside_border b coords subs).getD i []).getD k (0, 0)
      = relocated_coordinate b ((subs.getD i []).getD k (0, 0)) := by
  unfold relocate_sub_coordinates_outside_border
  rw [getD_map_lt (fun pix => pix.map (relocated_coordinate b)) subs [] [] i hi]
  rw [getD_map_lt (relocated_coordinate b) (subs.getD i []) (0, 0) (0, 0) k hk]

/-- C5 witness: the amended pointwise statement applied to the test data:
entry (0, 0) of the relocated sub-grid is the relocation of (2, 0), namely
(1, 0), although parent 0 is a border pixel. -/
theorem relocate_sub_pointwise_witness :
    0 < testSubCoords.length
    ∧ 0 < (testSubCoords.getD 0 []).length
    ∧ ((relocate_sub_coordinates_outside_border unitCircleBorder cardinalCoords
        testSubCoords).getD 0 []).getD 0 (0, 0) = (1, 0) := by
  refine ⟨by simp [testSubCoords], by simp [testSubCoords], ?_⟩
  rw [relocate_sub_pointwise unitCircleBorder cardinalCoords testSubCoords 0 0
    (by simp [testSubCoords]) (by simp [testSubCoords])]
  rw [show (testSubCoords.getD 0 []).getD 0 ((0 : ℝ), (0 : ℝ)) = ((2 : ℝ), (0 : ℝ)) by
    simp [testSubCoords]]
  exact reloc_unit_two_zero

end AutoLens
